import Mathlib

/-!
Verification of the 2D geometry primitives in `src/core/src/math_utils.rs`
(vector/angle utilities, segment intersection in floating and integer
coordinates, horizontal-scanline intersection).

Embedding conventions:
* `f32` scalars are embedded as exact rationals (`ℚ`); the arithmetic of the
  source is translated operation by operation.  The decimal literals of the
  source (`0.000001`, `0.00001`, `0.9999`) are embedded by their decimal
  values.
* `i32`/`i64` scalars are embedded as `ℤ`; where the source's fixed-width
  arithmetic can overflow, the two's-complement wrap-around is made explicit
  with `wrap32`.  Rust's truncating integer division is `Int.tdiv`.
* The transcendental functions (`atan2`, `acos`, `sqrt`) of the angle
  utilities are embedded over `ℝ` via `Complex.arg`, `Real.arccos` and
  `Real.sqrt`.
* For the one claim that is about floating-point *rounding* (the missing
  clamp in `angle_between`), a bit-accurate model of IEEE-754 binary32
  round-to-nearest-even arithmetic is given (`rnd32`, `rsqrt32`, ...) and
  evaluated on a concrete input.
-/

/-- 2D vector/point with `f32` coordinates (embedded exactly as `ℚ`),
mirroring `Vec2` of the `math` crate used by `math_utils.rs`. -/
structure Vec2 where
  x : ℚ
  y : ℚ
deriving DecidableEq

/-- Constructor `vec2(x, y)`. -/
def vec2 (x y : ℚ) : Vec2 := ⟨x, y⟩

instance : Add Vec2 := ⟨fun a b => ⟨a.x + b.x, a.y + b.y⟩⟩

instance : Sub Vec2 := ⟨fun a b => ⟨a.x - b.x, a.y - b.y⟩⟩

/-- Vector-times-scalar `v * t`, as used in `a1 + (v1 * t)`. -/
instance : HMul Vec2 ℚ Vec2 := ⟨fun v t => ⟨v.x * t, v.y * t⟩⟩

@[simp] theorem Vec2.add_x (a b : Vec2) : (a + b).x = a.x + b.x := rfl

@[simp] theorem Vec2.add_y (a b : Vec2) : (a + b).y = a.y + b.y := rfl

@[simp] theorem Vec2.sub_x (a b : Vec2) : (a - b).x = a.x - b.x := rfl

@[simp] theorem Vec2.sub_y (a b : Vec2) : (a - b).y = a.y - b.y := rfl

@[simp] theorem Vec2.smul_x (v : Vec2) (t : ℚ) : (v * t).x = v.x * t := rfl

@[simp] theorem Vec2.smul_y (v : Vec2) (t : ℚ) : (v * t).y = v.y * t := rfl

@[simp] theorem vec2_x (x y : ℚ) : (vec2 x y).x = x := rfl

@[simp] theorem vec2_y (x y : ℚ) : (vec2 x y).y = y := rfl

/-- 2D cross product `a.cross(b)` of the `math` crate:
`a.x * b.y - a.y * b.x`. -/
def Vec2.cross (a b : Vec2) : ℚ := a.x * b.y - a.y * b.x

/-- Dot product `a.dot(b)`. -/
def Vec2.dot (a b : Vec2) : ℚ := a.x * b.x + a.y * b.y

/-- Squared length `v.square_length()` (`v.x*v.x + v.y*v.y`). -/
def Vec2.square_length (a : Vec2) : ℚ := a.x * a.x + a.y * a.y

/-- `fuzzy_eq_f32(a, b)`: `|a - b| <= 0.000001`. -/
def fuzzy_eq_f32 (a b : ℚ) : Prop := |a - b| ≤ 1/1000000

instance (a b : ℚ) : Decidable (fuzzy_eq_f32 a b) :=
  inferInstanceAs (Decidable (|a - b| ≤ 1/1000000))

/-- `fuzzy_eq(a, b)`: both coordinates fuzzy-equal. -/
def fuzzy_eq (a b : Vec2) : Prop := fuzzy_eq_f32 a.x b.x ∧ fuzzy_eq_f32 a.y b.y

instance (a b : Vec2) : Decidable (fuzzy_eq a b) :=
  inferInstanceAs (Decidable (_ ∧ _))

/-- `is_below(a, b)`: `a.y > b.y || (a.y == b.y && a.x > b.x)`. -/
def is_below (a b : Vec2) : Prop := a.y > b.y ∨ (a.y = b.y ∧ a.x > b.x)

instance (a b : Vec2) : Decidable (is_below a b) :=
  inferInstanceAs (Decidable (_ ∨ _))

/-- 2D point with `i32` coordinates (embedded as `ℤ`), mirroring `IntVec2`. -/
structure IntVec2 where
  x : ℤ
  y : ℤ
deriving DecidableEq

/-- Constructor `int_vec2(x, y)`. -/
def int_vec2 (x y : ℤ) : IntVec2 := ⟨x, y⟩

/-- `is_below_int(a, b)`: same ordering on integer points. -/
def is_below_int (a b : IntVec2) : Prop := a.y > b.y ∨ (a.y = b.y ∧ a.x > b.x)

instance (a b : IntVec2) : Decidable (is_below_int a b) :=
  inferInstanceAs (Decidable (_ ∨ _))

/-- `segment_intersection(a1, b1, a2, b2)` of `math_utils.rs`, translated
branch by branch (degenerate-second-segment guard, exactly-parallel /
collinear cascade, then the general branch with the
`(0.00001, 0.9999)` acceptance band). -/
def segment_intersection (a1 b1 a2 b2 : Vec2) : Option Vec2 :=
  let v1 := b1 - a1
  let v2 := b2 - a2
  if fuzzy_eq v2 (vec2 0 0) then none
  else
    let v1_cross_v2 := v1.cross v2
    let a2_a1_cross_v1 := (a2 - a1).cross v1
    if v1_cross_v2 = 0 then
      if a2_a1_cross_v1 = 0 then
        let v1_sqr_len := v1.square_length
        let v1_dot_a2a1 := v1.dot (a2 - a1)
        if v1_dot_a2a1 > 0 ∧ v1_dot_a2a1 < v1_sqr_len then some a2
        else
          let v1_dot_b2a1 := v1.dot (b2 - a1)
          if v1_dot_b2a1 > 0 ∧ v1_dot_b2a1 < v1_sqr_len then some b2
          else
            let v2_sqr_len := v2.square_length
            let v2_dot_a1a2 := v2.dot (a1 - a2)
            if v2_dot_a1a2 > 0 ∧ v2_dot_a1a2 < v2_sqr_len then some a1
            else
              let v2_dot_b1a2 := v2.dot (b1 - a2)
              if v2_dot_b1a2 > 0 ∧ v2_dot_b1a2 < v2_sqr_len then some b1
              else none
      else none
    else
      let t := (a2 - a1).cross v2 / v1_cross_v2
      let u := a2_a1_cross_v1 / v1_cross_v2
      if t > 1/100000 ∧ t < 9999/10000 ∧ u > 1/100000 ∧ u < 9999/10000 then
        some (a1 + v1 * t)
      else none

/-- Rust `as i32` cast from `f32`: truncation toward zero (the values this
program casts are small, so the saturating behaviour at the `i32` bounds is
never exercised and is not modelled). -/
def ratTrunc (q : ℚ) : ℤ := if q < 0 then -⌊-q⌋ else ⌊q⌋

/-- Source function `segment_intersection_int`: the integer variant.  The
`i32 -> f32` casts are embedded exactly (exact for `|coordinate| ≤ 2^24`);
the zero-test on `v2` is exact equality (not fuzzy), the general-branch
acceptance band is the open interval `(0, 1)`, and results are cast back by
truncation toward zero. -/
def segment_intersection_int (p1 q1 p2 q2 : IntVec2) : Option IntVec2 :=
  if p1 = p2 ∨ p1 = q1 ∨ q1 = p2 ∨ q1 = q2 then none
  else
    let a1 := vec2 p1.x p1.y
    let a2 := vec2 p2.x p2.y
    let b1 := vec2 q1.x q1.y
    let b2 := vec2 q2.x q2.y
    let v1 := b1 - a1
    let v2 := b2 - a2
    if v2 = vec2 0 0 then none
    else
      let v1_cross_v2 := v1.cross v2
      let a2_a1_cross_v1 := (a2 - a1).cross v1
      if v1_cross_v2 = 0 then
        if a2_a1_cross_v1 = 0 then
          let v1_sqr_len := v1.x * v1.x + v1.y * v1.y
          let v1_dot_a2a1 := v1.dot (a2 - a1)
          if v1_dot_a2a1 > 0 ∧ v1_dot_a2a1 < v1_sqr_len then
            some (int_vec2 (ratTrunc a2.x) (ratTrunc a2.y))
          else
            let v1_dot_b2a1 := v1.dot (b2 - a1)
            if v1_dot_b2a1 > 0 ∧ v1_dot_b2a1 < v1_sqr_len then
              some (int_vec2 (ratTrunc b2.x) (ratTrunc b2.y))
            else
              let v2_sqr_len := v2.x * v2.x + v2.y * v2.y
              let v2_dot_a1a2 := v2.dot (a1 - a2)
              if v2_dot_a1a2 > 0 ∧ v2_dot_a1a2 < v2_sqr_len then
                some (int_vec2 (ratTrunc a1.x) (ratTrunc a1.y))
              else
                let v2_dot_b1a2 := v2.dot (b1 - a2)
                if v2_dot_b1a2 > 0 ∧ v2_dot_b1a2 < v2_sqr_len then
                  some (int_vec2 (ratTrunc b1.x) (ratTrunc b1.y))
                else none
        else none
      else
        let t := (a2 - a1).cross v2 / v1_cross_v2
        let u := a2_a1_cross_v1 / v1_cross_v2
        if t > 0 ∧ t < 1 ∧ u > 0 ∧ u < 1 then
          let res := a1 + v1 * t
          some (int_vec2 (ratTrunc res.x) (ratTrunc res.y))
        else none

/-- `line_horizontal_intersection(a, b, y)`: x where the line a-b crosses
height `y`; horizontal segments return the right-most x. -/
def line_horizontal_intersection (a b : Vec2) (y : ℚ) : ℚ :=
  let vx := b.x - a.x
  let vy := b.y - a.y
  if vy = 0 then max a.x b.x
  else a.x + (y - a.y) * vx / vy

/-- Two's-complement wrap-around of `i32` arithmetic: reduce into
`[-2^31, 2^31)`. -/
def wrap32 (n : ℤ) : ℤ := (n + 2 ^ 31) % 2 ^ 32 - 2 ^ 31

/-- Predicate: `n` is representable as an `i32`. -/
def InI32 (n : ℤ) : Prop := -(2 ^ 31) ≤ n ∧ n < 2 ^ 31

instance (n : ℤ) : Decidable (InI32 n) := inferInstanceAs (Decidable (_ ∧ _))

/-- `line_horizontal_intersection_int(a, b, y)`: the `i32` variant.  The
differences `b.x - a.x`, `b.y - a.y` and `y - a.y` are `i32` subtractions
(wrap-around on overflow); the product and the truncating division happen in
`i64` (exact, since factors fit in 32 bits); the sum `a.x + ...` is `i64`;
the result is cast back to `i32` (wrap-around). -/
def line_horizontal_intersection_int (a b : IntVec2) (y : ℤ) : ℤ :=
  let vx := wrap32 (b.x - a.x)
  let vy := wrap32 (b.y - a.y)
  if vy = 0 then max a.x b.x
  else wrap32 (a.x + Int.tdiv (wrap32 (y - a.y) * vx) vy)

/-- Membership of a point on a closed segment `[a, b]` (used to state the
shared-endpoint and collinear-overlap claims). -/
def seg_mem (p a b : Vec2) : Prop := ∃ t : ℚ, 0 ≤ t ∧ t ≤ 1 ∧ p = a + (b - a) * t

/-- C5: `is_below` (floating) and `is_below_int` (integer) are strict weak
orders: irreflexive, transitive, incomparability coincides with equality,
and `a` is below `b` iff `a.y > b.y`, or `a.y = b.y` and `a.x > b.x`. -/
theorem C5_is_below_strict_weak_order :
    (∀ a : Vec2, ¬ is_below a a) ∧
    (∀ a b c : Vec2, is_below a b → is_below b c → is_below a c) ∧
    (∀ a b : Vec2, ¬ is_below a b → ¬ is_below b a → a = b) ∧
    (∀ a b : Vec2, is_below a b ↔ (a.y > b.y ∨ (a.y = b.y ∧ a.x > b.x))) ∧
    (∀ a : IntVec2, ¬ is_below_int a a) ∧
    (∀ a b c : IntVec2, is_below_int a b → is_below_int b c → is_below_int a c) ∧
    (∀ a b : IntVec2, ¬ is_below_int a b → ¬ is_below_int b a → a = b) ∧
    (∀ a b : IntVec2, is_below_int a b ↔ (a.y > b.y ∨ (a.y = b.y ∧ a.x > b.x))) := by
  refine ⟨?_, ?_, ?_, ?_, ?_, ?_, ?_, ?_⟩
  · rintro a (h | ⟨-, h⟩) <;> exact lt_irrefl _ h
  · rintro a b c (h1 | ⟨e1, h1⟩) (h2 | ⟨e2, h2⟩)
    · exact Or.inl (h2.trans h1)
    · exact Or.inl (e2 ▸ h1)
    · exact Or.inl (e1 ▸ h2)
    · exact Or.inr ⟨e1.trans e2, h2.trans h1⟩
  · intro a b h1 h2
    simp only [is_below, not_or, not_and, not_lt] at h1 h2
    obtain ⟨hy1, hx1⟩ := h1
    obtain ⟨hy2, hx2⟩ := h2
    have hy : a.y = b.y := le_antisymm hy1 hy2
    have hx : a.x = b.x := le_antisymm (hx1 hy) (hx2 hy.symm)
    cases a; cases b; simp_all
  · intro a b; exact Iff.rfl
  · rintro a (h | ⟨-, h⟩) <;> exact lt_irrefl _ h
  · rintro a b c (h1 | ⟨e1, h1⟩) (h2 | ⟨e2, h2⟩)
    · exact Or.inl (h2.trans h1)
    · exact Or.inl (e2 ▸ h1)
    · exact Or.inl (e1 ▸ h2)
    · exact Or.inr ⟨e1.trans e2, h2.trans h1⟩
  · intro a b h1 h2
    simp only [is_below_int, not_or, not_and, not_lt] at h1 h2
    obtain ⟨hy1, hx1⟩ := h1
    obtain ⟨hy2, hx2⟩ := h2
    have hy : a.y = b.y := le_antisymm hy1 hy2
    have hx : a.x = b.x := le_antisymm (hx1 hy) (hx2 hy.symm)
    cases a; cases b; simp_all
  · intro a b; exact Iff.rfl

/-- Witness for C5: the transitivity conjunct applied at concrete points. -/
theorem C5_witness :
    is_below (vec2 0 2) (vec2 1 0) ∧ is_below_int (int_vec2 0 2) (int_vec2 1 0) :=
  ⟨C5_is_below_strict_weak_order.2.1 (vec2 0 2) (vec2 2 1) (vec2 1 0)
      (by norm_num [is_below, vec2]) (by norm_num [is_below, vec2]),
    C5_is_below_strict_weak_order.2.2.2.2.2.1 (int_vec2 0 2) (int_vec2 2 1) (int_vec2 1 0)
      (by norm_num [is_below_int, int_vec2]) (by norm_num [is_below_int, int_vec2])⟩

/-- C6: the integer segment intersection immediately returns none whenever
`a1 = a2`, `a1 = b1`, `b1 = a2` or `b1 = b2` (exact integer equality);
a shared-vertex configuration among these pairs is never reported. -/
theorem C6_int_shared_vertex_rejected (a1 b1 a2 b2 : IntVec2)
    (h : a1 = a2 ∨ a1 = b1 ∨ b1 = a2 ∨ b1 = b2) :
    segment_intersection_int a1 b1 a2 b2 = none := by
  unfold segment_intersection_int
  exact if_pos h

/-- Witness for C6: a concrete shared-vertex configuration. -/
theorem C6_witness :
    segment_intersection_int (int_vec2 0 0) (int_vec2 1 0) (int_vec2 1 0) (int_vec2 2 5) =
      none :=
  C6_int_shared_vertex_rejected _ _ _ _ (by norm_num [int_vec2])

/-- C7: `line_horizontal_intersection` returns `max a.x b.x` for horizontal
segments regardless of `y`, and the linear interpolation
`a.x + (y - a.y) * (b.x - a.x) / (b.y - a.y)` otherwise; in particular
a=(0,2), b=(2,0) at y=1 gives 1 and a=(0,1), b=(3,0) at y=0 gives 3. -/
theorem C7_line_horizontal_intersection (a b : Vec2) (y : ℚ) :
    (b.y = a.y → line_horizontal_intersection a b y = max a.x b.x) ∧
    (b.y ≠ a.y →
      line_horizontal_intersection a b y = a.x + (y - a.y) * (b.x - a.x) / (b.y - a.y)) ∧
    line_horizontal_intersection (vec2 0 2) (vec2 2 0) 1 = 1 ∧
    line_horizontal_intersection (vec2 0 1) (vec2 3 0) 0 = 3 := by
  refine ⟨?_, ?_, ?_, ?_⟩
  · intro h
    simp only [line_horizontal_intersection]
    rw [if_pos (by rw [h]; ring)]
  · intro h
    simp only [line_horizontal_intersection]
    rw [if_neg (by exact sub_ne_zero.mpr h)]
  · norm_num [line_horizontal_intersection, vec2]
  · norm_num [line_horizontal_intersection, vec2]

/-- Witness for C7: both branches at concrete inputs. -/
theorem C7_witness :
    line_horizontal_intersection (vec2 0 5) (vec2 2 5) 9 = max 0 2 ∧
    line_horizontal_intersection (vec2 0 0) (vec2 4 2) 1 = 0 + (1 - 0) * (4 - 0) / (2 - 0) :=
  ⟨(C7_line_horizontal_intersection (vec2 0 5) (vec2 2 5) 9).1 rfl,
    (C7_line_horizontal_intersection (vec2 0 0) (vec2 4 2) 1).2.1 (by norm_num [vec2])⟩

@[ext] theorem Vec2.ext_xy (a b : Vec2) (hx : a.x = b.x) (hy : a.y = b.y) : a = b := by
  cases a; cases b; cases hx; cases hy; rfl

/-- Parameter `t` of the general branch of `segment_intersection`:
`((a2 - a1) × v2) / (v1 × v2)`. -/
def seg_param_t (a1 b1 a2 b2 : Vec2) : ℚ :=
  (a2 - a1).cross (b2 - a2) / (b1 - a1).cross (b2 - a2)

/-- Parameter `u` of the general branch of `segment_intersection`:
`((a2 - a1) × v1) / (v1 × v2)`. -/
def seg_param_u (a1 b1 a2 b2 : Vec2) : ℚ :=
  (a2 - a1).cross (b1 - a1) / (b1 - a1).cross (b2 - a2)

/-- C1: in the general branch (`v2` not fuzzy-zero and `v1 × v2 ≠ 0`),
`segment_intersection` returns `some (a1 + v1 * t)` iff
`t ∈ (1e-5, 0.9999)` and `u ∈ (1e-5, 0.9999)`, and none otherwise; in
particular segments (0,0)-(1,1) and (0,1)-(1,0) intersect at a point within
fuzzy-equality tolerance of (0.5, 0.5) (here: exactly at it). -/
theorem C1_general_branch_band (a1 b1 a2 b2 : Vec2)
    (hv2 : ¬ fuzzy_eq (b2 - a2) (vec2 0 0))
    (hc : (b1 - a1).cross (b2 - a2) ≠ 0) :
    ((1/100000 < seg_param_t a1 b1 a2 b2 ∧ seg_param_t a1 b1 a2 b2 < 9999/10000 ∧
      1/100000 < seg_param_u a1 b1 a2 b2 ∧ seg_param_u a1 b1 a2 b2 < 9999/10000) →
      segment_intersection a1 b1 a2 b2 =
        some (a1 + (b1 - a1) * seg_param_t a1 b1 a2 b2)) ∧
    (¬(1/100000 < seg_param_t a1 b1 a2 b2 ∧ seg_param_t a1 b1 a2 b2 < 9999/10000 ∧
       1/100000 < seg_param_u a1 b1 a2 b2 ∧ seg_param_u a1 b1 a2 b2 < 9999/10000) →
      segment_intersection a1 b1 a2 b2 = none) ∧
    segment_intersection (vec2 0 0) (vec2 1 1) (vec2 0 1) (vec2 1 0) =
      some (vec2 (1/2) (1/2)) ∧
    fuzzy_eq (vec2 (1/2) (1/2)) (vec2 (1/2) (1/2)) := by
  refine ⟨?_, ?_, ?_, ?_⟩
  · intro h
    simp only [seg_param_t, seg_param_u] at h
    simp only [segment_intersection]
    rw [if_neg hv2, if_neg hc, if_pos h]
    simp only [seg_param_t]
  · intro h
    simp only [seg_param_t, seg_param_u] at h
    simp only [segment_intersection]
    rw [if_neg hv2, if_neg hc, if_neg h]
  · simp only [segment_intersection]
    rw [if_neg (by norm_num [fuzzy_eq, fuzzy_eq_f32, vec2])]
    rw [if_neg (by norm_num [Vec2.cross, vec2])]
    rw [if_pos (by norm_num [Vec2.cross, vec2])]
    norm_num [Vec2.cross, vec2]
    ext <;> norm_num [vec2]
  · norm_num [fuzzy_eq, fuzzy_eq_f32, vec2]

/-- Witness for C1: the crossing example, via the general-branch theorem. -/
theorem C1_witness :
    segment_intersection (vec2 0 0) (vec2 1 1) (vec2 0 1) (vec2 1 0) =
      some (vec2 0 0 +
        (vec2 1 1 - vec2 0 0) * seg_param_t (vec2 0 0) (vec2 1 1) (vec2 0 1) (vec2 1 0)) :=
  (C1_general_branch_band (vec2 0 0) (vec2 1 1) (vec2 0 1) (vec2 1 0)
      (by norm_num [fuzzy_eq, fuzzy_eq_f32, vec2])
      (by norm_num [Vec2.cross, vec2])).1
    (by norm_num [seg_param_t, seg_param_u, Vec2.cross, vec2])

/-- C10: a degenerate first segment `[p, p]` is not rejected: with `v2` not
fuzzy-zero, the collinear branch is taken and the function returns `some p`
exactly when the projection parameter `v2 · (p - a2)` lies strictly between
`0` and `|v2|²` — regardless of whether `p` lies on the line through `a2`
and `b2` — and none otherwise. -/
theorem C10_degenerate_first_segment (p a2 b2 : Vec2)
    (hv2 : ¬ fuzzy_eq (b2 - a2) (vec2 0 0)) :
    segment_intersection p p a2 b2 =
      if 0 < (b2 - a2).dot (p - a2) ∧ (b2 - a2).dot (p - a2) < (b2 - a2).square_length
      then some p else none := by
  have h0 : p - p = vec2 0 0 := by ext <;> simp [vec2]
  simp only [segment_intersection, h0]
  rw [if_neg hv2]
  rw [if_pos (show (vec2 0 0).cross (b2 - a2) = 0 by simp [Vec2.cross, vec2])]
  rw [if_pos (show (a2 - p).cross (vec2 0 0) = 0 by simp [Vec2.cross, vec2])]
  rw [if_neg (show ¬((vec2 0 0).dot (a2 - p) > 0 ∧
        (vec2 0 0).dot (a2 - p) < (vec2 0 0).square_length) by
      simp [Vec2.dot, Vec2.square_length, vec2])]
  rw [if_neg (show ¬((vec2 0 0).dot (b2 - p) > 0 ∧
        (vec2 0 0).dot (b2 - p) < (vec2 0 0).square_length) by
      simp [Vec2.dot, Vec2.square_length, vec2])]
  by_cases h3 : 0 < (b2 - a2).dot (p - a2) ∧ (b2 - a2).dot (p - a2) < (b2 - a2).square_length
  · rw [if_pos h3, if_pos h3]
  · rw [if_neg h3, if_neg h3]

/-- Witness for C10: a degenerate first segment at (1/2, 5), far off the
line of the second segment (0,0)-(1,0), is still reported. -/
theorem C10_witness :
    segment_intersection (vec2 (1/2) 5) (vec2 (1/2) 5) (vec2 0 0) (vec2 1 0) =
      if 0 < (vec2 1 0 - vec2 0 0).dot (vec2 (1/2) 5 - vec2 0 0) ∧
          (vec2 1 0 - vec2 0 0).dot (vec2 (1/2) 5 - vec2 0 0) <
            (vec2 1 0 - vec2 0 0).square_length
      then some (vec2 (1/2) 5) else none :=
  C10_degenerate_first_segment (vec2 (1/2) 5) (vec2 0 0) (vec2 1 0)
    (by norm_num [fuzzy_eq, fuzzy_eq_f32, vec2])

theorem ne_zero_of_not_fuzzy (v : Vec2) (h : ¬ fuzzy_eq v (vec2 0 0)) : v ≠ vec2 0 0 := by
  intro he
  exact h (by rw [he]; norm_num [fuzzy_eq, fuzzy_eq_f32, vec2])

theorem eq_of_sub_eq_zero_vec (a b : Vec2) (h : a - b = vec2 0 0) : a = b := by
  ext
  · have hx := congrArg Vec2.x h
    simp only [Vec2.sub_x, vec2_x] at hx
    linarith
  · have hy := congrArg Vec2.y h
    simp only [Vec2.sub_y, vec2_y] at hy
    linarith

theorem square_length_pos (v : Vec2) (h : v ≠ vec2 0 0) : 0 < v.square_length := by
  have hc : v.x ≠ 0 ∨ v.y ≠ 0 := by
    by_contra hc
    push_neg at hc
    exact h (by ext <;> simp [vec2, hc.1, hc.2])
  rcases hc with hc | hc
  · have h1 : 0 < v.x * v.x := mul_self_pos.mpr hc
    have h2 : 0 ≤ v.y * v.y := mul_self_nonneg v.y
    unfold Vec2.square_length
    linarith
  · have h1 : 0 < v.y * v.y := mul_self_pos.mpr hc
    have h2 : 0 ≤ v.x * v.x := mul_self_nonneg v.x
    unfold Vec2.square_length
    linarith

theorem cross_transfer (x y v : Vec2) (hv : v ≠ vec2 0 0)
    (hx : x.cross v = 0) (hy : y.cross v = 0) : x.cross y = 0 := by
  have hvc : v.x ≠ 0 ∨ v.y ≠ 0 := by
    by_contra hc
    push_neg at hc
    exact hv (by ext <;> simp [vec2, hc.1, hc.2])
  simp only [Vec2.cross] at hx hy ⊢
  rcases hvc with hvc | hvc
  · have h1 : (x.x * y.y - x.y * y.x) * v.x = 0 := by linear_combination y.x * hx - x.x * hy
    exact (mul_eq_zero.mp h1).resolve_right hvc
  · have h2 : (x.x * y.y - x.y * y.x) * v.y = 0 := by linear_combination y.y * hx - x.y * hy
    exact (mul_eq_zero.mp h2).resolve_right hvc

theorem seg_mem_left (a b : Vec2) : seg_mem a a b :=
  ⟨0, le_refl 0, by norm_num, by ext <;> simp⟩

theorem seg_mem_right (a b : Vec2) : seg_mem b a b :=
  ⟨1, by norm_num, le_refl 1, by ext <;> simp⟩

theorem strict_inside (a b p : Vec2) (hne : b - a ≠ vec2 0 0)
    (hcr : (p - a).cross (b - a) = 0)
    (h1 : (b - a).dot (p - a) > 0) (h2 : (b - a).dot (p - a) < (b - a).square_length) :
    ∃ t : ℚ, 0 < t ∧ t < 1 ∧ p = a + (b - a) * t := by
  have hs := square_length_pos _ hne
  refine ⟨(b - a).dot (p - a) / (b - a).square_length, div_pos h1 hs, ?_, ?_⟩
  · rw [div_lt_one hs]
    exact h2
  · ext
    · show p.x = a.x + (b - a).x * ((b - a).dot (p - a) / (b - a).square_length)
      field_simp
      simp only [Vec2.cross, Vec2.dot, Vec2.square_length, Vec2.sub_x, Vec2.sub_y] at hcr ⊢
      linear_combination (b.y - a.y) * hcr
    · show p.y = a.y + (b - a).y * ((b - a).dot (p - a) / (b - a).square_length)
      field_simp
      simp only [Vec2.cross, Vec2.dot, Vec2.square_length, Vec2.sub_x, Vec2.sub_y] at hcr ⊢
      linear_combination -(b.x - a.x) * hcr

theorem interior_ne_endpoints (a b p : Vec2) (hne : b - a ≠ vec2 0 0)
    (t : ℚ) (h0 : 0 < t) (h1 : t < 1) (hp : p = a + (b - a) * t) :
    p ≠ a ∧ p ≠ b := by
  constructor
  · intro he
    apply hne
    ext
    · have hx := congrArg Vec2.x (he ▸ hp)
      simp only [Vec2.add_x, Vec2.smul_x, Vec2.sub_x, vec2_x] at hx ⊢
      have : (b.x - a.x) * t = 0 := by linarith
      rcases mul_eq_zero.mp this with h | h
      · exact h
      · exact absurd h (ne_of_gt h0)
    · have hy := congrArg Vec2.y (he ▸ hp)
      simp only [Vec2.add_y, Vec2.smul_y, Vec2.sub_y, vec2_y] at hy ⊢
      have : (b.y - a.y) * t = 0 := by linarith
      rcases mul_eq_zero.mp this with h | h
      · exact h
      · exact absurd h (ne_of_gt h0)
  · intro he
    apply hne
    ext
    · have hx := congrArg Vec2.x (he ▸ hp)
      simp only [Vec2.add_x, Vec2.smul_x, Vec2.sub_x, vec2_x] at hx ⊢
      have : (b.x - a.x) * (t - 1) = 0 := by nlinarith [hx]
      rcases mul_eq_zero.mp this with h | h
      · exact h
      · exact absurd h (by linarith)
    · have hy := congrArg Vec2.y (he ▸ hp)
      simp only [Vec2.add_y, Vec2.smul_y, Vec2.sub_y, vec2_y] at hy ⊢
      have : (b.y - a.y) * (t - 1) = 0 := by nlinarith [hy]
      rcases mul_eq_zero.mp this with h | h
      · exact h
      · exact absurd h (by linarith)

/-- Counterexample to C2 as stated: the two *identical* collinear segments
(0,0)-(1,0) and (0,0)-(1,0) satisfy every hypothesis of the claim — the
second segment is not fuzzy-zero, `v1 × v2 = 0` and `(a2 - a1) × v1 = 0`
exactly, and the overlap region has nonempty interior (it contains the two
distinct common points (1/4,0) and (1/2,0)) — yet `segment_intersection`
returns none: all four endpoint projections land exactly on a boundary, so
no check of the cascade fires. -/
theorem C2_counterexample_identical_segments :
    ¬ fuzzy_eq (vec2 1 0 - vec2 0 0) (vec2 0 0) ∧
    (vec2 1 0 - vec2 0 0).cross (vec2 1 0 - vec2 0 0) = 0 ∧
    (vec2 0 0 - vec2 0 0).cross (vec2 1 0 - vec2 0 0) = 0 ∧
    (vec2 (1/4) 0 ≠ vec2 (1/2) 0 ∧
      seg_mem (vec2 (1/4) 0) (vec2 0 0) (vec2 1 0) ∧
      seg_mem (vec2 (1/2) 0) (vec2 0 0) (vec2 1 0)) ∧
    segment_intersection (vec2 0 0) (vec2 1 0) (vec2 0 0) (vec2 1 0) = none := by
  refine ⟨?_, ?_, ?_, ⟨?_, ?_, ?_⟩, ?_⟩
  · norm_num [fuzzy_eq, fuzzy_eq_f32, vec2]
  · norm_num [Vec2.cross, vec2]
  · norm_num [Vec2.cross, vec2]
  · simp [vec2]
  · exact ⟨1/4, by norm_num, by norm_num, by ext <;> simp [vec2]⟩
  · exact ⟨1/2, by norm_num, by norm_num, by ext <;> simp [vec2]⟩
  · norm_num [segment_intersection, fuzzy_eq, fuzzy_eq_f32, Vec2.cross, Vec2.dot,
      Vec2.square_length, vec2]

/-- C2 as amended: under the collinear-branch hypotheses (`v2` not
fuzzy-zero, `v1 × v2 = 0`, `(a2 - a1) × v1 = 0`), `segment_intersection`
returns `some` of the first endpoint — in the fixed order a2, b2, a1, b1 —
whose projection parameter is strictly interior (`0 < dot < squared
length`), and none when no endpoint qualifies (which includes disjoint or
endpoint-touching collinear segments, but also segments covering the
identical point set); the claim's disjoint example (0,0)-(1,0) vs
(2,0)-(3,0) returns none. -/
theorem C2_amended_collinear_cascade (a1 b1 a2 b2 : Vec2)
    (hfz : ¬ fuzzy_eq (b2 - a2) (vec2 0 0))
    (hpar : (b1 - a1).cross (b2 - a2) = 0)
    (hcol : (a2 - a1).cross (b1 - a1) = 0) :
    (segment_intersection a1 b1 a2 b2 =
      if (b1 - a1).dot (a2 - a1) > 0 ∧ (b1 - a1).dot (a2 - a1) < (b1 - a1).square_length
      then some a2
      else if (b1 - a1).dot (b2 - a1) > 0 ∧ (b1 - a1).dot (b2 - a1) < (b1 - a1).square_length
      then some b2
      else if (b2 - a2).dot (a1 - a2) > 0 ∧ (b2 - a2).dot (a1 - a2) < (b2 - a2).square_length
      then some a1
      else if (b2 - a2).dot (b1 - a2) > 0 ∧ (b2 - a2).dot (b1 - a2) < (b2 - a2).square_length
      then some b1
      else none) ∧
    segment_intersection (vec2 0 0) (vec2 1 0) (vec2 2 0) (vec2 3 0) = none := by
  constructor
  · simp only [segment_intersection]
    rw [if_neg hfz, if_pos hpar, if_pos hcol]
  · norm_num [segment_intersection, fuzzy_eq, fuzzy_eq_f32, Vec2.cross, Vec2.dot,
      Vec2.square_length, vec2]

/-- Witness for C2 (amended): genuinely overlapping collinear segments
(0,0)-(2,0) and (1,0)-(3,0); the cascade fires at its first check. -/
theorem C2_witness :
    (segment_intersection (vec2 0 0) (vec2 2 0) (vec2 1 0) (vec2 3 0) =
      if (vec2 2 0 - vec2 0 0).dot (vec2 1 0 - vec2 0 0) > 0 ∧
          (vec2 2 0 - vec2 0 0).dot (vec2 1 0 - vec2 0 0) <
            (vec2 2 0 - vec2 0 0).square_length
      then some (vec2 1 0)
      else if (vec2 2 0 - vec2 0 0).dot (vec2 3 0 - vec2 0 0) > 0 ∧
          (vec2 2 0 - vec2 0 0).dot (vec2 3 0 - vec2 0 0) <
            (vec2 2 0 - vec2 0 0).square_length
      then some (vec2 3 0)
      else if (vec2 3 0 - vec2 1 0).dot (vec2 0 0 - vec2 1 0) > 0 ∧
          (vec2 3 0 - vec2 1 0).dot (vec2 0 0 - vec2 1 0) <
            (vec2 3 0 - vec2 1 0).square_length
      then some (vec2 0 0)
      else if (vec2 3 0 - vec2 1 0).dot (vec2 2 0 - vec2 1 0) > 0 ∧
          (vec2 3 0 - vec2 1 0).dot (vec2 2 0 - vec2 1 0) <
            (vec2 3 0 - vec2 1 0).square_length
      then some (vec2 2 0)
      else none) ∧
    segment_intersection (vec2 0 0) (vec2 1 0) (vec2 2 0) (vec2 3 0) = none :=
  C2_amended_collinear_cascade (vec2 0 0) (vec2 2 0) (vec2 1 0) (vec2 3 0)
    (by norm_num [fuzzy_eq, fuzzy_eq_f32, vec2])
    (by norm_num [Vec2.cross, vec2])
    (by norm_num [Vec2.cross, vec2])

/-- C4: if the two segments share a vertex P (an endpoint of both) and P is
their only common point, `segment_intersection` returns none — endpoint
coincidence is never reported as an intersection. -/
theorem C4_shared_endpoint_none (a1 b1 a2 b2 P : Vec2)
    (hP1 : P = a1 ∨ P = b1) (hP2 : P = a2 ∨ P = b2)
    (honly : ∀ p : Vec2, seg_mem p a1 b1 → seg_mem p a2 b2 → p = P) :
    segment_intersection a1 b1 a2 b2 = none := by
  by_cases hfz : fuzzy_eq (b2 - a2) (vec2 0 0)
  · simp only [segment_intersection]
    rw [if_pos hfz]
  · have hv2ne : b2 - a2 ≠ vec2 0 0 := ne_zero_of_not_fuzzy _ hfz
    by_cases hcross : (b1 - a1).cross (b2 - a2) = 0
    · by_cases hcol : (a2 - a1).cross (b1 - a1) = 0
      · -- collinear branch: show every check of the cascade fails
        by_cases hv1 : b1 - a1 = vec2 0 0
        · -- degenerate first segment sharing its point with an endpoint of 2
          have hb1 : b1 = a1 := eq_of_sub_eq_zero_vec _ _ hv1
          have hPa : P = a1 := by rcases hP1 with h | h; exact h; exact h.trans hb1
          have hA : ¬((b1 - a1).dot (a2 - a1) > 0 ∧
              (b1 - a1).dot (a2 - a1) < (b1 - a1).square_length) := by
            rintro ⟨g1, -⟩
            rw [hb1] at g1
            simp [Vec2.dot] at g1
          have hB : ¬((b1 - a1).dot (b2 - a1) > 0 ∧
              (b1 - a1).dot (b2 - a1) < (b1 - a1).square_length) := by
            rintro ⟨g1, -⟩
            rw [hb1] at g1
            simp [Vec2.dot] at g1
          have hC : ¬((b2 - a2).dot (a1 - a2) > 0 ∧
              (b2 - a2).dot (a1 - a2) < (b2 - a2).square_length) := by
            rcases hP2 with h2 | h2
            · have ha : a2 = a1 := h2.symm.trans hPa
              rintro ⟨g1, -⟩
              rw [ha] at g1
              simp [Vec2.dot] at g1
            · have hb : b2 = a1 := h2.symm.trans hPa
              rintro ⟨-, g2⟩
              rw [← hb] at g2
              simp only [Vec2.dot, Vec2.square_length, Vec2.sub_x, Vec2.sub_y] at g2
              exact absurd g2 (lt_irrefl _)
          have hD : ¬((b2 - a2).dot (b1 - a2) > 0 ∧
              (b2 - a2).dot (b1 - a2) < (b2 - a2).square_length) := by
            rw [hb1]
            exact hC
          simp only [segment_intersection]
          rw [if_neg hfz, if_pos hcross, if_pos hcol, if_neg hA, if_neg hB, if_neg hC,
            if_neg hD]
        · -- non-degenerate collinear: each strictly-interior endpoint would be
          -- a second common point distinct from P
          have hA : ¬((b1 - a1).dot (a2 - a1) > 0 ∧
              (b1 - a1).dot (a2 - a1) < (b1 - a1).square_length) := by
            rintro ⟨g1, g2⟩
            obtain ⟨t, t0, t1, hrep⟩ := strict_inside a1 b1 a2 hv1 hcol g1 g2
            have hPa := honly a2 ⟨t, le_of_lt t0, le_of_lt t1, hrep⟩ (seg_mem_left a2 b2)
            obtain ⟨hne1, hne2⟩ := interior_ne_endpoints a1 b1 a2 hv1 t t0 t1 hrep
            rcases hP1 with h | h
            · exact hne1 (hPa.trans h)
            · exact hne2 (hPa.trans h)
          have hB : ¬((b1 - a1).dot (b2 - a1) > 0 ∧
              (b1 - a1).dot (b2 - a1) < (b1 - a1).square_length) := by
            rintro ⟨g1, g2⟩
            have hcolB : (b2 - a1).cross (b1 - a1) = 0 := by
              simp only [Vec2.cross, Vec2.sub_x, Vec2.sub_y] at hcol hcross ⊢
              linear_combination hcol - hcross
            obtain ⟨t, t0, t1, hrep⟩ := strict_inside a1 b1 b2 hv1 hcolB g1 g2
            have hPa := honly b2 ⟨t, le_of_lt t0, le_of_lt t1, hrep⟩ (seg_mem_right a2 b2)
            obtain ⟨hne1, hne2⟩ := interior_ne_endpoints a1 b1 b2 hv1 t t0 t1 hrep
            rcases hP1 with h | h
            · exact hne1 (hPa.trans h)
            · exact hne2 (hPa.trans h)
          have hxa : (a1 - a2).cross (b1 - a1) = 0 := by
            simp only [Vec2.cross, Vec2.sub_x, Vec2.sub_y] at hcol ⊢
            linear_combination -hcol
          have hyv : (b2 - a2).cross (b1 - a1) = 0 := by
            simp only [Vec2.cross, Vec2.sub_x, Vec2.sub_y] at hcross ⊢
            linear_combination -hcross
          have hC : ¬((b2 - a2).dot (a1 - a2) > 0 ∧
              (b2 - a2).dot (a1 - a2) < (b2 - a2).square_length) := by
            rintro ⟨g1, g2⟩
            have hcolC : (a1 - a2).cross (b2 - a2) = 0 :=
              cross_transfer (a1 - a2) (b2 - a2) (b1 - a1) hv1 hxa hyv
            obtain ⟨t, t0, t1, hrep⟩ := strict_inside a2 b2 a1 hv2ne hcolC g1 g2
            have hPa := honly a1 (seg_mem_left a1 b1) ⟨t, le_of_lt t0, le_of_lt t1, hrep⟩
            obtain ⟨hne1, hne2⟩ := interior_ne_endpoints a2 b2 a1 hv2ne t t0 t1 hrep
            rcases hP2 with h | h
            · exact hne1 (hPa.trans h)
            · exact hne2 (hPa.trans h)
          have hD : ¬((b2 - a2).dot (b1 - a2) > 0 ∧
              (b2 - a2).dot (b1 - a2) < (b2 - a2).square_length) := by
            rintro ⟨g1, g2⟩
            have hxb : (b1 - a2).cross (b1 - a1) = 0 := by
              simp only [Vec2.cross, Vec2.sub_x, Vec2.sub_y] at hcol ⊢
              linear_combination -hcol
            have hcolD : (b1 - a2).cross (b2 - a2) = 0 :=
              cross_transfer (b1 - a2) (b2 - a2) (b1 - a1) hv1 hxb hyv
            obtain ⟨t, t0, t1, hrep⟩ := strict_inside a2 b2 b1 hv2ne hcolD g1 g2
            have hPa := honly b1 (seg_mem_right a1 b1) ⟨t, le_of_lt t0, le_of_lt t1, hrep⟩
            obtain ⟨hne1, hne2⟩ := interior_ne_endpoints a2 b2 b1 hv2ne t t0 t1 hrep
            rcases hP2 with h | h
            · exact hne1 (hPa.trans h)
            · exact hne2 (hPa.trans h)
          simp only [segment_intersection]
          rw [if_neg hfz, if_pos hcross, if_pos hcol, if_neg hA, if_neg hB, if_neg hC,
            if_neg hD]
      · -- parallel non-collinear: none immediately
        simp only [segment_intersection]
        rw [if_neg hfz, if_pos hcross, if_neg hcol]
    · -- general branch: the shared vertex forces t = 0 or t = 1
      have ht : (a2 - a1).cross (b2 - a2) = 0 ∨
          (a2 - a1).cross (b2 - a2) = (b1 - a1).cross (b2 - a2) := by
        rcases hP1 with h1 | h1 <;> rcases hP2 with h2 | h2
        · left
          have ha : a2 = a1 := h2.symm.trans h1
          rw [ha]
          simp only [Vec2.cross, Vec2.sub_x, Vec2.sub_y]
          ring
        · left
          have hb : b2 = a1 := h2.symm.trans h1
          rw [← hb]
          simp only [Vec2.cross, Vec2.sub_x, Vec2.sub_y]
          ring
        · right
          have ha : a2 = b1 := h2.symm.trans h1
          rw [ha]
        · right
          have hb : b2 = b1 := h2.symm.trans h1
          rw [hb]
          simp only [Vec2.cross, Vec2.sub_x, Vec2.sub_y]
          ring
      have hguard : ¬((a2 - a1).cross (b2 - a2) / (b1 - a1).cross (b2 - a2) > 1/100000 ∧
          (a2 - a1).cross (b2 - a2) / (b1 - a1).cross (b2 - a2) < 9999/10000 ∧
          (a2 - a1).cross (b1 - a1) / (b1 - a1).cross (b2 - a2) > 1/100000 ∧
          (a2 - a1).cross (b1 - a1) / (b1 - a1).cross (b2 - a2) < 9999/10000) := by
        rintro ⟨g1, g2, -, -⟩
        rcases ht with ht | ht
        · rw [ht, zero_div] at g1
          norm_num at g1
        · rw [ht, div_self hcross] at g2
          norm_num at g2
      simp only [segment_intersection]
      rw [if_neg hfz, if_neg hcross, if_neg hguard]

/-- Witness for C4: segments (0,0)-(1,0) and (1,0)-(1,1) share only the
vertex (1,0). -/
theorem C4_witness :
    segment_intersection (vec2 0 0) (vec2 1 0) (vec2 1 0) (vec2 1 1) = none := by
  refine C4_shared_endpoint_none (vec2 0 0) (vec2 1 0) (vec2 1 0) (vec2 1 1) (vec2 1 0)
    (Or.inr rfl) (Or.inl rfl) ?_
  rintro p ⟨t, ht0, ht1, hp⟩ ⟨s, hs0, hs1, hq⟩
  have hpx := congrArg Vec2.x hp
  have hpy := congrArg Vec2.y hp
  have hqx := congrArg Vec2.x hq
  have hqy := congrArg Vec2.y hq
  simp only [Vec2.add_x, Vec2.add_y, Vec2.smul_x, Vec2.smul_y, Vec2.sub_x, Vec2.sub_y,
    vec2_x, vec2_y] at hpx hpy hqx hqy
  ext
  · simp only [vec2_x]
    linarith
  · simp only [vec2_y]
    linarith

/-- Counterexample to C8 as stated: at the `i32` inputs a = (-2, 0),
b = (2147483647, 2), y = 1 (and `b.y ≠ a.y`), the difference `b.x - a.x`
is computed as an `i32` subtraction and wraps around (2147483649 becomes
-2147483647), so the function returns -1073741825 while the claimed
widened-arithmetic formula gives 1073741822: the differences are *not*
performed in a 64-bit type and an intermediate computation does overflow. -/
theorem C8_counterexample_i32_difference_overflow :
    InI32 (-2) ∧ InI32 0 ∧ InI32 2147483647 ∧ InI32 2 ∧ InI32 1 ∧
    (int_vec2 2147483647 2).y - (int_vec2 (-2) 0).y ≠ 0 ∧
    line_horizontal_intersection_int (int_vec2 (-2) 0) (int_vec2 2147483647 2) 1 =
      -1073741825 ∧
    (-1073741825 : ℤ) ≠
      (int_vec2 (-2) 0).x +
        Int.tdiv ((1 - (int_vec2 (-2) 0).y) *
            ((int_vec2 2147483647 2).x - (int_vec2 (-2) 0).x))
          ((int_vec2 2147483647 2).y - (int_vec2 (-2) 0).y) := by
  refine ⟨by decide, by decide, by decide, by decide, by decide, by decide, ?_, by decide⟩
  decide

/-- C8 as amended: the numerator multiplication, the truncating division and
the sum are exact (64-bit, no overflow possible for 32-bit factors), but the
three differences are `i32` subtractions and the result is narrowed with
wrap-around; whenever those differences and the final result fit in `i32`
(and `b.y ≠ a.y`), the function computes exactly
`a.x + (y - a.y) * (b.x - a.x) / (b.y - a.y)` with truncating division. -/
theorem C8_amended_widened_when_no_overflow (a b : IntVec2) (y : ℤ)
    (hvy0 : b.y - a.y ≠ 0)
    (hvx : InI32 (b.x - a.x)) (hvy : InI32 (b.y - a.y)) (hdy : InI32 (y - a.y))
    (hres : InI32 (a.x + Int.tdiv ((y - a.y) * (b.x - a.x)) (b.y - a.y))) :
    line_horizontal_intersection_int a b y =
      a.x + Int.tdiv ((y - a.y) * (b.x - a.x)) (b.y - a.y) := by
  have hw : ∀ n : ℤ, InI32 n → wrap32 n = n := by
    rintro n ⟨h1, h2⟩
    unfold wrap32
    rw [Int.emod_eq_of_lt (by linarith) (by linarith)]
    ring
  simp only [line_horizontal_intersection_int]
  rw [hw _ hvx, hw _ hvy, hw _ hdy, if_neg hvy0, hw _ hres]

/-- Witness for C8 (amended): an in-range input, a=(0,0), b=(2,2), y=1. -/
theorem C8_witness :
    line_horizontal_intersection_int (int_vec2 0 0) (int_vec2 2 2) 1 =
      (int_vec2 0 0).x +
        Int.tdiv ((1 - (int_vec2 0 0).y) * ((int_vec2 2 2).x - (int_vec2 0 0).x))
          ((int_vec2 2 2).y - (int_vec2 0 0).y) :=
  C8_amended_widened_when_no_overflow (int_vec2 0 0) (int_vec2 2 2) 1
    (by decide) (by decide) (by decide) (by decide) (by decide)

/-- 2D vector with `f32` coordinates for the angle utilities, embedded over
`ℝ` because they use the transcendental functions `atan2`, `acos`, `sqrt`. -/
structure RVec2 where
  x : ℝ
  y : ℝ

/-- `atan2(y, x)`: the principal argument of the complex number `x + iy`,
in `(-π, π]`. -/
noncomputable def atan2 (y x : ℝ) : ℝ := Complex.arg ⟨x, y⟩

/-- `directed_angle(a, b)`: `atan2(b.y, b.x) - atan2(a.y, a.x)`, plus `2π`
when negative. -/
noncomputable def directed_angle (a b : RVec2) : ℝ :=
  let angle := atan2 b.y b.x - atan2 a.y a.x
  if angle < 0 then angle + 2 * Real.pi else angle

/-- `v.length()` of the `math` crate: `sqrt(x*x + y*y)`. -/
noncomputable def RVec2.length (v : RVec2) : ℝ := Real.sqrt (v.x * v.x + v.y * v.y)

/-- `angle_between(start_vector, end_vector)`: `acos` of the cosine formula,
negated when the 2D cross product is negative.  Note: the source passes the
quotient to `acos` unclamped. -/
noncomputable def angle_between (s e : RVec2) : ℝ :=
  let r := Real.arccos ((s.x * e.x + s.y * e.y) / (s.length * e.length))
  if s.x * e.y - s.y * e.x < 0 then -r else r

/-- C9: for non-zero vectors, `directed_angle` lies in `[0, 2π)` (strictly
below `2π`), and `directed_angle v v = 0` exactly. -/
theorem C9_directed_angle_range (a b : RVec2)
    (ha : a ≠ ⟨0, 0⟩) (hb : b ≠ ⟨0, 0⟩) :
    (0 ≤ directed_angle a b ∧ directed_angle a b < 2 * Real.pi) ∧
    directed_angle a a = 0 := by
  have hα1 : -Real.pi < Complex.arg ⟨a.x, a.y⟩ := Complex.neg_pi_lt_arg _
  have hα2 : Complex.arg (⟨a.x, a.y⟩ : ℂ) ≤ Real.pi := Complex.arg_le_pi _
  have hβ1 : -Real.pi < Complex.arg ⟨b.x, b.y⟩ := Complex.neg_pi_lt_arg _
  have hβ2 : Complex.arg (⟨b.x, b.y⟩ : ℂ) ≤ Real.pi := Complex.arg_le_pi _
  constructor
  · simp only [directed_angle, atan2]
    split_ifs with h
    · constructor <;> linarith
    · push_neg at h
      constructor <;> linarith
  · simp only [directed_angle, atan2, sub_self]
    norm_num

/-- Witness for C9 at the concrete non-zero vectors (1,0) and (0,1). -/
theorem C9_witness :
    (0 ≤ directed_angle ⟨1, 0⟩ ⟨0, 1⟩ ∧ directed_angle ⟨1, 0⟩ ⟨0, 1⟩ < 2 * Real.pi) ∧
    directed_angle ⟨1, 0⟩ ⟨1, 0⟩ = 0 :=
  C9_directed_angle_range ⟨1, 0⟩ ⟨0, 1⟩
    (by simp [RVec2.mk.injEq]) (by simp [RVec2.mk.injEq])

theorem int_log_eq (r : ℚ) (e : ℤ) (h0 : 0 < r)
    (h1 : (2:ℚ) ^ e ≤ r) (h2 : r < (2:ℚ) ^ (e + 1)) : Int.log 2 r = e := by
  have hcast : ((2:ℕ):ℚ) = 2 := by norm_num
  have hl : ((2:ℕ):ℚ) ^ Int.log 2 r ≤ r := @Int.zpow_log_le_self ℚ _ _ 2 r one_lt_two h0
  have hu : r < ((2:ℕ):ℚ) ^ (Int.log 2 r + 1) :=
    @Int.lt_zpow_succ_log_self ℚ _ _ 2 one_lt_two r
  rw [hcast] at hl hu
  by_contra hne
  rcases lt_or_gt_of_ne hne with hlt | hgt
  · have hm : (2:ℚ) ^ (Int.log 2 r + 1) ≤ (2:ℚ) ^ e :=
      zpow_le_zpow_right₀ one_le_two (by omega)
    linarith
  · have hm : (2:ℚ) ^ (e + 1) ≤ (2:ℚ) ^ Int.log 2 r :=
      zpow_le_zpow_right₀ one_le_two (by omega)
    linarith

theorem nat_sqrt_eq (N s : ℕ) (h1 : s * s ≤ N) (h2 : N < (s + 1) * (s + 1)) :
    Nat.sqrt N = s := by
  have hle : s ≤ Nat.sqrt N := Nat.le_sqrt.mpr h1
  have hlt : Nat.sqrt N < s + 1 := Nat.sqrt_lt.mpr h2
  omega

/-- Round a rational to the nearest integer, ties to even (the IEEE-754
default rounding applied to a value scaled into integer position). -/
def rhe (x : ℚ) : ℤ :=
  let k := ⌊x⌋
  let f := x - k
  if f < 1/2 then k
  else if 1/2 < f then k + 1
  else if k % 2 = 0 then k else k + 1

/-- Exact value of rounding `m` to IEEE-754 binary32 (24-bit significand,
round-to-nearest-even).  The exponent range is unbounded (no overflow or
subnormal handling), which is faithful for the magnitudes arising in the
inputs considered here. -/
def rnd32 (m : ℚ) : ℚ :=
  if m = 0 then 0
  else
    (if m < 0 then (-1:ℚ) else 1) *
      (rhe (|m| * 2 ^ ((23:ℤ) - Int.log 2 |m|)) : ℚ) * 2 ^ (Int.log 2 |m| - 23)

/-- Nearest 24-bit integer significand to `√scaled` for
`scaled ∈ [2^46, 2^48)`, ties to even: the integer `s = ⌊√scaled⌋` is
bumped to `s+1` when `scaled` exceeds `(s + 1/2)^2 = s*s + s + 1/4`. -/
def sqrtRound24 (scaled : ℚ) : ℕ :=
  let s := Nat.sqrt ⌊scaled⌋.toNat
  if scaled < (s:ℚ) * s + s + 1/4 then s
  else if (s:ℚ) * s + s + 1/4 < scaled then s + 1
  else if s % 2 = 0 then s else s + 1

/-- Correctly rounded IEEE-754 binary32 square root of `D` (round to
nearest, ties to even), for `D > 0` in the normal range. -/
def rsqrt32 (D : ℚ) : ℚ :=
  if D ≤ 0 then 0
  else
    (sqrtRound24 (D * 2 ^ ((46:ℤ) - 2 * (Int.log 2 D / 2))) : ℚ) *
      2 ^ (Int.log 2 D / 2 - 23)

/-- `f32` multiplication: exact product, then binary32 rounding. -/
def f32mul (x y : ℚ) : ℚ := rnd32 (x * y)

/-- `f32` addition: exact sum, then binary32 rounding. -/
def f32add (x y : ℚ) : ℚ := rnd32 (x + y)

/-- `f32` division: exact quotient, then binary32 rounding. -/
def f32div (x y : ℚ) : ℚ := rnd32 (x / y)

/-- `v.length()` in binary32 arithmetic: `sqrt(x*x + y*y)` with each
operation correctly rounded. -/
def f32length (x y : ℚ) : ℚ := rsqrt32 (f32add (f32mul x x) (f32mul y y))

/-- The argument the source's `angle_between` passes to `acos`, evaluated in
binary32 arithmetic exactly as written:
`(s.x*e.x + s.y*e.y) / (s.length() * e.length())` — with no clamp. -/
def angle_between_acos_arg (ux uy vx vy : ℚ) : ℚ :=
  f32div (f32add (f32mul ux vx) (f32mul uy vy))
    (f32mul (f32length ux uy) (f32length vx vy))

theorem rnd32_eval (m r : ℚ) (e n : ℤ) (h0 : 0 < m)
    (h1 : (2:ℚ) ^ e ≤ m) (h2 : m < (2:ℚ) ^ (e + 1))
    (hn : rhe (m * 2 ^ ((23:ℤ) - e)) = n)
    (hr : (n:ℚ) * 2 ^ (e - 23) = r) :
    rnd32 m = r := by
  unfold rnd32
  rw [if_neg h0.ne', if_neg (not_lt.mpr h0.le), abs_of_pos h0,
    show Int.log 2 m = e from int_log_eq m e h0 h1 h2, hn, one_mul]
  exact hr

theorem sqrtRound24_eval_down (x : ℚ) (N s : ℕ)
    (hfl : ⌊x⌋.toNat = N) (h1 : s * s ≤ N) (h2 : N < (s + 1) * (s + 1))
    (hlt : x < (s:ℚ) * s + s + 1/4) :
    sqrtRound24 x = s := by
  simp only [sqrtRound24, hfl, nat_sqrt_eq N s h1 h2]
  rw [if_pos hlt]

theorem rsqrt32_eval (D r : ℚ) (e2 : ℤ) (n : ℕ) (h0 : 0 < D)
    (hlog : Int.log 2 D = e2)
    (hn : sqrtRound24 (D * 2 ^ ((46:ℤ) - 2 * (e2 / 2))) = n)
    (hr : (n:ℚ) * 2 ^ (e2 / 2 - 23) = r) :
    rsqrt32 D = r := by
  unfold rsqrt32
  rw [if_neg (not_le.mpr h0), hlog, hn]
  exact hr

/-- C3 (evidence that the code lacks the claimed clamp): already at the
vectors u = v = (1,1), the argument that `angle_between` passes to `acos`
evaluates in IEEE-754 binary32 arithmetic to `8388609/8388608 > 1`: the dot
product rounds to exactly 2, `length` rounds to `fl(√2) = 11863283/2^23`,
whose binary32 square is `16777215/2^23 < 2`, and the final division rounds
up to `1 + 2^-23`.  Since the source passes this value to `acos` unclamped,
`acos` receives an argument outside `[-1, 1]` and produces NaN, contrary to
the claim that the argument is clamped into `[-1, 1]` and the result always
finite. -/
theorem C3_acos_argument_exceeds_one :
    angle_between_acos_arg 1 1 1 1 = 8388609/8388608 ∧
    (1:ℚ) < 8388609/8388608 := by
  have hone : rnd32 1 = 1 :=
    rnd32_eval 1 1 0 8388608 (by norm_num) (by norm_num) (by norm_num)
      (by norm_num [rhe]) (by norm_num)
  have htwo : rnd32 2 = 2 :=
    rnd32_eval 2 2 1 8388608 (by norm_num) (by norm_num) (by norm_num)
      (by norm_num [rhe]) (by norm_num)
  have hL : rsqrt32 2 = 11863283/8388608 :=
    rsqrt32_eval 2 (11863283/8388608) 1 11863283 (by norm_num)
      (int_log_eq 2 1 (by norm_num) (by norm_num) (by norm_num))
      (sqrtRound24_eval_down _ 140737488355328 11863283 (by norm_num; simp)
        (by norm_num) (by norm_num) (by norm_num))
      (by norm_num)
  have hM : rnd32 (11863283/8388608 * (11863283/8388608)) = 16777215/8388608 := by
    rw [show (11863283:ℚ)/8388608 * (11863283/8388608) =
        140737483538089/70368744177664 from by norm_num]
    exact rnd32_eval _ _ 0 16777215 (by norm_num) (by norm_num) (by norm_num)
      (by norm_num [rhe]) (by norm_num)
  have hR : rnd32 (2 / (16777215/8388608)) = 8388609/8388608 := by
    rw [show (2:ℚ) / (16777215/8388608) = 16777216/16777215 from by norm_num]
    exact rnd32_eval _ _ 0 8388609 (by norm_num) (by norm_num) (by norm_num)
      (by norm_num [rhe]) (by norm_num)
  refine ⟨?_, by norm_num⟩
  unfold angle_between_acos_arg f32div f32length f32add f32mul
  rw [show (1:ℚ) * 1 = 1 from by norm_num, hone,
    show (1:ℚ) + 1 = 2 from by norm_num, htwo, hL, hM, hR]
